import Mathlib

/-!
Shallow embedding of the trace-aggregation core of
`src/libtorch_demo/qwen3_infer.cpp`: the per-thread interval resolver and
cross-thread aggregator (`aggregate_kernel_stats`, lines 73-121), the shape
formatter (`format_shape`, lines 56-71) and the ranking / report formatter
(`print_kernel_stats`, lines 123-166).

Modelling decisions:
  - `double` durations and timestamps are embedded as `ℚ` (the source feeds
    integer-derived microsecond values through exact `double` arithmetic on
    the magnitudes exercised here; `ℚ` keeps the arithmetic structure —
    subtraction, clamping, summation, max — exact).
  - the profiler event (`LegacyEvent`) is reduced to the fields the core
    reads: `kind()`, `name()`, `shapes()` and the timestamp consumed by
    `cpuElapsedUs`.
  - `std::unordered_map<std::string, KernelStat>` is embedded as an
    association list with unique keys in first-insertion order;
    `stats[name]` (default-construct on miss, then update in place) becomes
    `foldInterval`.  The C++ map's iteration order is unspecified; the
    claims checked against iteration order only constrain situations
    (pairwise-distinct sort keys, row counts, whole-map sums) where any
    iteration order gives the same answer.
  - `std::sort` with comparator `lhs.total_us > rhs.total_us` is embedded
    as `List.insertionSort` with the total relation `rhs ≤ lhs`; both
    produce some reordering sorted by `total_us` descending, and the
    claims about row order fix pairwise-distinct totals, where every
    descending sort agrees.
-/

namespace QwenInfer

/-- Event kind of a profiler `LegacyEvent`: `PushRange` opens a span
(spec: Enter) and `PopRange` closes one (spec: Exit). -/
inductive EventKind where
  | PushRange
  | PopRange
  deriving DecidableEq, Repr

/-- The slice of `torch::autograd::profiler::LegacyEvent` the core reads:
`kind()`, `name()`, `shapes()`, and the CPU timestamp that
`cpuElapsedUs` subtracts (in microseconds). -/
structure LegacyEvent where
  kind : EventKind
  name : String
  timestamp_us : ℚ
  shapes : List (List ℤ)
  deriving DecidableEq, Repr

/-- Embedding of `LegacyEvent::cpuElapsedUs`: elapsed microseconds from
`start` to `stop`. -/
def cpuElapsedUs (start stop : LegacyEvent) : ℚ :=
  stop.timestamp_us - start.timestamp_us

/-- Embedding of `format_shape` (lines 56-71): empty string when the shape
list is empty or its first entry is empty, otherwise the first entry's
dimensions joined by `x` and wrapped in brackets. -/
def format_shape (shapes : List (List ℤ)) : String :=
  match shapes with
  | [] => ""
  | dims :: _ =>
    if dims = [] then ""
    else "[" ++ String.intercalate "x" (dims.map toString) ++ "]"

/-- Embedding of `KernelStat` (lines 48-54) with its default member
initializers. -/
structure KernelStat where
  total_us : ℚ := 0
  self_us : ℚ := 0
  max_us : ℚ := 0
  calls : ℤ := 0
  sample_shape : String := ""
  deriving DecidableEq, Repr

/-- Embedding of the resolver's `ActiveRange` (lines 79-82): the opening
event plus the accumulated inclusive time of directly nested closed
children. -/
structure ActiveRange where
  start : LegacyEvent
  child_time_us : ℚ
  deriving DecidableEq, Repr

/-- The spec's ResolvedInterval: what one matched Enter/Exit pair
contributes at lines 96-113 — name, clamped inclusive and exclusive
durations, and the formatted shape of the opening event. -/
structure ResolvedInterval where
  name : String
  inclusive_us : ℚ
  exclusive_us : ℚ
  shape : String
  deriving DecidableEq, Repr

/-- The interval computed when `event` pops `active` (lines 96-105, 112):
`inclusive_us = cpuElapsedUs` clamped at zero, `exclusive_us =
inclusive_us - child_time_us` clamped at zero. -/
def popInterval (active : ActiveRange) (event : LegacyEvent) : ResolvedInterval :=
  let raw := cpuElapsedUs active.start event
  let inclusive_us := if raw < 0 then 0 else raw
  let exclusive_us :=
    if inclusive_us - active.child_time_us < 0 then 0
    else inclusive_us - active.child_time_us
  ⟨active.start.name, inclusive_us, exclusive_us, format_shape active.start.shapes⟩

/-- Lines 115-117: after a pop, add the closed interval's inclusive time to
the new top frame's `child_time_us` (no-op on an empty stack). -/
def addChild (stack : List ActiveRange) (inclusive_us : ℚ) : List ActiveRange :=
  match stack with
  | [] => []
  | top :: below => { top with child_time_us := top.child_time_us + inclusive_us } :: below

/-- The per-thread stack loop of `aggregate_kernel_stats` (lines 85-119)
viewed as the spec's Per-Thread Interval Resolver: it returns the
ResolvedIntervals in emission order instead of folding them into the map
(the fold is `foldInterval` below; `processLoop_eq_foldl` glues the two
back together into the source's single interleaved loop). -/
def resolveLoop (events : List LegacyEvent) (stack : List ActiveRange) :
    List ResolvedInterval :=
  match events with
  | [] => []
  | event :: rest =>
    match event.kind with
    | .PushRange => resolveLoop rest (⟨event, 0⟩ :: stack)
    | .PopRange =>
      match stack with
      | [] => resolveLoop rest []
      | active :: below =>
        let interval := popInterval active event
        interval :: resolveLoop rest (addChild below interval.inclusive_us)

/-- One thread's resolved intervals: the loop started on the empty stack
(line 85). -/
def resolveIntervals (events : List LegacyEvent) : List ResolvedInterval :=
  resolveLoop events []

/-- Embedding of the statistics map `std::unordered_map<std::string,
KernelStat>`: an association list with unique keys kept in first-insertion
order. -/
abbrev StatsMap : Type := List (String × KernelStat)

/-- Lines 107-113: fold one resolved interval into a `KernelStat` —
increment `calls`, add inclusive to `total_us`, add exclusive to
`self_us`, take the max of `max_us`, and set `sample_shape` only when it
is still empty. -/
def updateStat (stat : KernelStat) (interval : ResolvedInterval) : KernelStat :=
  { stat with
    calls := stat.calls + 1
    total_us := stat.total_us + interval.inclusive_us
    self_us := stat.self_us + interval.exclusive_us
    max_us := max stat.max_us interval.inclusive_us
    sample_shape :=
      if stat.sample_shape = "" then interval.shape else stat.sample_shape }

/-- Embedding of `stats[kernel_name]` followed by the updates of lines
106-113: update the entry for the interval's name in place, default-
constructing it at the end of the list when absent. -/
def foldInterval (stats : StatsMap) (interval : ResolvedInterval) : StatsMap :=
  match stats with
  | [] => [(interval.name, updateStat {} interval)]
  | (name, stat) :: rest =>
    if name = interval.name then (name, updateStat stat interval) :: rest
    else (name, stat) :: foldInterval rest interval

/-- Lookup in the statistics map with the `unordered_map::operator[]`
default: the entry for `name`, or a default-constructed `KernelStat` when
absent. -/
def lookupStat (stats : StatsMap) (name : String) : KernelStat :=
  match stats with
  | [] => {}
  | (key, stat) :: rest => if key = name then stat else lookupStat rest name

/-- The source's interleaved per-thread loop (lines 85-119) exactly as
written: one pass over the events maintaining the `ActiveRange` stack and
mutating the statistics map at each pop. -/
def processLoop (stats : StatsMap) (events : List LegacyEvent)
    (stack : List ActiveRange) : StatsMap :=
  match events with
  | [] => stats
  | event :: rest =>
    match event.kind with
    | .PushRange => processLoop stats rest (⟨event, 0⟩ :: stack)
    | .PopRange =>
      match stack with
      | [] => processLoop stats rest []
      | active :: below =>
        let interval := popInterval active event
        processLoop (foldInterval stats interval) rest
          (addChild below interval.inclusive_us)

/-- Embedding of `aggregate_kernel_stats` (lines 73-121): run the
per-thread loop over every thread's event list, threading the shared
statistics map through. -/
def aggregate_kernel_stats (event_lists : List (List LegacyEvent))
    (stats : StatsMap) : StatsMap :=
  event_lists.foldl (fun m thread_events => processLoop m thread_events []) stats

/-- One display row of the report (lines 150-161): truncated name, calls,
total, self, average (guarded against zero calls), max, and the sample
shape. -/
structure Row where
  name : String
  calls : ℤ
  total_us : ℚ
  self_us : ℚ
  avg_us : ℚ
  max_us : ℚ
  shape : String
  deriving DecidableEq, Repr

/-- The row printed for one sorted entry (lines 151-160). -/
def mkRow (entry : String × KernelStat) : Row :=
  { name := entry.1.take 48
    calls := entry.2.calls
    total_us := entry.2.total_us
    self_us := entry.2.self_us
    avg_us := if entry.2.calls > 0 then entry.2.total_us / (entry.2.calls : ℚ) else 0
    max_us := entry.2.max_us
    shape := if entry.2.sample_shape = "" then "" else entry.2.sample_shape }

/-- Comparator of the `std::sort` call at lines 130-132 completed to a
total relation: entry `lhs` precedes `rhs` when `rhs.total_us ≤
lhs.total_us` (descending by total inclusive time). -/
def statBefore (lhs rhs : String × KernelStat) : Prop :=
  rhs.2.total_us ≤ lhs.2.total_us

instance : DecidableRel statBefore := fun lhs rhs =>
  inferInstanceAs (Decidable (rhs.2.total_us ≤ lhs.2.total_us))

/-- The two shapes of output `print_kernel_stats` can emit: the
"No profiler events collected." path (lines 124-127), or the table — its
data rows and the "Self time total" grand total (lines 129-165). -/
inductive Report where
  | noEvents
  | table (rows : List Row) (selfTimeTotal : ℚ)
  deriving DecidableEq, Repr

/-- Data rows of a report (none on the no-events path). -/
def Report.rows : Report → List Row
  | .noEvents => []
  | .table rows _ => rows

/-- Grand-total self time of a report (zero on the no-events path). -/
def Report.selfTimeTotal : Report → ℚ
  | .noEvents => 0
  | .table _ total => total

/-- Embedding of `print_kernel_stats` (lines 123-166): empty map reports
the no-events path; otherwise sort all entries by `total_us` descending,
sum `self_us` over ALL entries for the grand total, and render the first
`min 30 size` entries as rows. -/
def print_kernel_stats (stats : StatsMap) : Report :=
  match stats with
  | [] => .noEvents
  | entry :: rest =>
    let ordered := List.insertionSort statBefore (entry :: rest)
    let total_time := (ordered.map (fun e => e.2.self_us)).sum
    .table ((ordered.take 30).map mkRow) total_time

/-- First non-empty shape string of a list of resolved intervals (empty
when none is non-empty): the value `sample_shape` converges to under the
"set only while still empty" update of line 111-113. -/
def firstNonEmptyShape : List ResolvedInterval → String
  | [] => ""
  | interval :: rest =>
    if interval.shape = "" then firstNonEmptyShape rest else interval.shape

/-- All resolved intervals of a run, thread by thread in processing
order. -/
def allIntervals (event_lists : List (List LegacyEvent)) : List ResolvedInterval :=
  (event_lists.map resolveIntervals).flatten

theorem processLoop_eq_foldl (events : List LegacyEvent) :
    ∀ (stats : StatsMap) (stack : List ActiveRange),
      processLoop stats events stack =
        (resolveLoop events stack).foldl foldInterval stats := by
  induction events with
  | nil => intro stats stack; rfl
  | cons event rest ih =>
    intro stats stack
    cases hk : event.kind with
    | PushRange => simp only [processLoop, resolveLoop, hk]; exact ih _ _
    | PopRange =>
      cases stack with
      | nil => simp only [processLoop, resolveLoop, hk]; exact ih _ _
      | cons active below =>
        simp only [processLoop, resolveLoop, hk, List.foldl_cons]
        exact ih _ _

theorem aggregate_eq_foldl (event_lists : List (List LegacyEvent)) :
    ∀ stats : StatsMap,
      aggregate_kernel_stats event_lists stats =
        (allIntervals event_lists).foldl foldInterval stats := by
  induction event_lists with
  | nil => intro stats; rfl
  | cons thread rest ih =>
    intro stats
    have h1 : aggregate_kernel_stats (thread :: rest) stats =
        aggregate_kernel_stats rest (processLoop stats thread []) := rfl
    rw [h1, ih, processLoop_eq_foldl]
    simp only [allIntervals, List.map_cons, List.flatten_cons, List.foldl_append]
    rfl

theorem lookupStat_foldInterval (stats : StatsMap) (interval : ResolvedInterval)
    (n : String) :
    lookupStat (foldInterval stats interval) n =
      if interval.name = n then updateStat (lookupStat stats n) interval
      else lookupStat stats n := by
  induction stats with
  | nil => simp [foldInterval, lookupStat]
  | cons p rest ih =>
    obtain ⟨key, stat⟩ := p
    by_cases h1 : key = interval.name
    · by_cases h2 : interval.name = n
      · have hk : key = n := h1.trans h2
        simp [foldInterval, lookupStat, h1, h2, hk]
      · have hk : ¬ key = n := fun hh => h2 (h1.symm.trans hh)
        simp [foldInterval, lookupStat, h1, h2, hk]
    · by_cases h2 : key = n
      · have hn : ¬ interval.name = n := fun hh => h1 (h2.trans hh.symm)
        have hn2 : ¬ n = interval.name := fun hh => hn hh.symm
        simp [foldInterval, lookupStat, h1, h2, hn, hn2]
      · simp [foldInterval, lookupStat, h1, h2, ih]

theorem lookupStat_foldl (intervals : List ResolvedInterval) :
    ∀ (stats : StatsMap) (n : String),
      lookupStat (intervals.foldl foldInterval stats) n =
        (intervals.filter (fun iv => iv.name = n)).foldl updateStat
          (lookupStat stats n) := by
  induction intervals with
  | nil => intro stats n; rfl
  | cons interval rest ih =>
    intro stats n
    by_cases h : interval.name = n
    · simp [List.foldl_cons, List.filter_cons, h, ih, lookupStat_foldInterval]
    · simp [List.foldl_cons, List.filter_cons, h, ih, lookupStat_foldInterval]

theorem foldl_updateStat_calls (intervals : List ResolvedInterval) :
    ∀ s : KernelStat,
      (intervals.foldl updateStat s).calls = s.calls + intervals.length := by
  induction intervals with
  | nil => intro s; simp
  | cons interval rest ih =>
    intro s
    simp [List.foldl_cons, ih, updateStat]
    ring

theorem foldl_updateStat_total (intervals : List ResolvedInterval) :
    ∀ s : KernelStat,
      (intervals.foldl updateStat s).total_us =
        s.total_us + (intervals.map ResolvedInterval.inclusive_us).sum := by
  induction intervals with
  | nil => intro s; simp
  | cons interval rest ih =>
    intro s
    simp [List.foldl_cons, ih, updateStat]
    ring

theorem foldl_updateStat_self (intervals : List ResolvedInterval) :
    ∀ s : KernelStat,
      (intervals.foldl updateStat s).self_us =
        s.self_us + (intervals.map ResolvedInterval.exclusive_us).sum := by
  induction intervals with
  | nil => intro s; simp
  | cons interval rest ih =>
    intro s
    simp [List.foldl_cons, ih, updateStat]
    ring

theorem foldl_updateStat_max (intervals : List ResolvedInterval) :
    ∀ s : KernelStat,
      (intervals.foldl updateStat s).max_us =
        intervals.foldl (fun a iv => max a iv.inclusive_us) s.max_us := by
  induction intervals with
  | nil => intro s; rfl
  | cons interval rest ih =>
    intro s
    simp [List.foldl_cons, ih, updateStat]

theorem foldl_updateStat_shape (intervals : List ResolvedInterval) :
    ∀ s : KernelStat,
      (intervals.foldl updateStat s).sample_shape =
        if s.sample_shape = "" then firstNonEmptyShape intervals
        else s.sample_shape := by
  induction intervals with
  | nil =>
    intro s
    by_cases h : s.sample_shape = "" <;> simp [firstNonEmptyShape, h]
  | cons interval rest ih =>
    intro s
    by_cases h : s.sample_shape = ""
    · by_cases h2 : interval.shape = "" <;>
        simp [List.foldl_cons, ih, updateStat, firstNonEmptyShape, h, h2]
    · simp [List.foldl_cons, ih, updateStat, h]

theorem foldl_max_perm {l l' : List ResolvedInterval} (h : l.Perm l') :
    ∀ a : ℚ,
      l.foldl (fun b iv => max b iv.inclusive_us) a =
        l'.foldl (fun b iv => max b iv.inclusive_us) a := by
  induction h with
  | nil => intro a; rfl
  | cons x _ ih => intro a; simp [List.foldl_cons, ih]
  | swap x y l =>
    intro a
    simp only [List.foldl_cons]
    rw [sup_right_comm]
  | trans _ _ ih1 ih2 => intro a; rw [ih1, ih2]

theorem popInterval_inclusive_nonneg (active : ActiveRange) (event : LegacyEvent) :
    0 ≤ (popInterval active event).inclusive_us := by
  simp only [popInterval]
  split_ifs with h <;> linarith

theorem popInterval_exclusive_nonneg (active : ActiveRange) (event : LegacyEvent) :
    0 ≤ (popInterval active event).exclusive_us := by
  simp only [popInterval]
  split_ifs with h1 h2 h2 <;> linarith

theorem popInterval_exclusive_le_inclusive (active : ActiveRange)
    (event : LegacyEvent) (h : 0 ≤ active.child_time_us) :
    (popInterval active event).exclusive_us ≤ (popInterval active event).inclusive_us := by
  simp only [popInterval]
  split_ifs with h1 h2 h2 <;> linarith

theorem resolveLoop_nonneg (events : List LegacyEvent) :
    ∀ stack : List ActiveRange, ∀ iv ∈ resolveLoop events stack,
      0 ≤ iv.inclusive_us ∧ 0 ≤ iv.exclusive_us := by
  induction events with
  | nil => intro stack iv hiv; simp [resolveLoop] at hiv
  | cons event rest ih =>
    intro stack iv hiv
    cases hk : event.kind with
    | PushRange =>
      simp only [resolveLoop, hk] at hiv
      exact ih _ iv hiv
    | PopRange =>
      cases stack with
      | nil =>
        simp only [resolveLoop, hk] at hiv
        exact ih _ iv hiv
      | cons active below =>
        simp only [resolveLoop, hk] at hiv
        rcases List.mem_cons.mp hiv with heq | hmem
        · subst heq
          exact ⟨popInterval_inclusive_nonneg _ _, popInterval_exclusive_nonneg _ _⟩
        · exact ih _ iv hmem

theorem addChild_nonneg (stack : List ActiveRange)
    (h : ∀ fr ∈ stack, 0 ≤ fr.child_time_us) (q : ℚ) (hq : 0 ≤ q) :
    ∀ fr ∈ addChild stack q, 0 ≤ fr.child_time_us := by
  cases stack with
  | nil => intro fr hfr; simp [addChild] at hfr
  | cons top below =>
    intro fr hfr
    rcases List.mem_cons.mp hfr with heq | hmem
    · subst heq
      have := h top (List.mem_cons_self _ _)
      simp only []
      exact add_nonneg this hq
    · exact h fr (List.mem_cons_of_mem _ hmem)

theorem resolveLoop_bounds (events : List LegacyEvent) :
    ∀ stack : List ActiveRange, (∀ fr ∈ stack, 0 ≤ fr.child_time_us) →
      ∀ iv ∈ resolveLoop events stack, iv.exclusive_us ≤ iv.inclusive_us := by
  induction events with
  | nil => intro stack _ iv hiv; simp [resolveLoop] at hiv
  | cons event rest ih =>
    intro stack hstack iv hiv
    cases hk : event.kind with
    | PushRange =>
      simp only [resolveLoop, hk] at hiv
      refine ih _ ?_ iv hiv
      intro fr hfr
      rcases List.mem_cons.mp hfr with heq | hmem
      · subst heq; exact le_rfl
      · exact hstack fr hmem
    | PopRange =>
      cases stack with
      | nil =>
        simp only [resolveLoop, hk] at hiv
        exact ih _ (by intro fr hfr; simp at hfr) iv hiv
      | cons active below =>
        simp only [resolveLoop, hk] at hiv
        rcases List.mem_cons.mp hiv with heq | hmem
        · subst heq
          exact popInterval_exclusive_le_inclusive _ _
            (hstack active (List.mem_cons_self _ _))
        · refine ih _ ?_ iv hmem
          exact addChild_nonneg below
            (fun fr hfr => hstack fr (List.mem_cons_of_mem _ hfr)) _
            (popInterval_inclusive_nonneg _ _)

/-- Bounds every resolved interval satisfies: non-negative inclusive and
exclusive time, with exclusive at most inclusive. -/
def IntervalBounds (iv : ResolvedInterval) : Prop :=
  0 ≤ iv.inclusive_us ∧ 0 ≤ iv.exclusive_us ∧ iv.exclusive_us ≤ iv.inclusive_us

theorem resolveIntervals_bounds (events : List LegacyEvent) :
    ∀ iv ∈ resolveIntervals events, IntervalBounds iv := by
  intro iv hiv
  have h1 := resolveLoop_nonneg events [] iv hiv
  have h2 := resolveLoop_bounds events [] (by intro fr hfr; simp at hfr) iv hiv
  exact ⟨h1.1, h1.2, h2⟩

theorem allIntervals_bounds (event_lists : List (List LegacyEvent)) :
    ∀ iv ∈ allIntervals event_lists, IntervalBounds iv := by
  intro iv hiv
  rcases List.mem_flatten.mp hiv with ⟨l, hl, hivl⟩
  rcases List.mem_map.mp hl with ⟨thread, _, rfl⟩
  exact resolveIntervals_bounds thread iv hivl

/-- Invariant of an aggregated `KernelStat` entry: all time fields
non-negative, self time at most total time, max at most total. -/
def StatInv (s : KernelStat) : Prop :=
  0 ≤ s.total_us ∧ 0 ≤ s.self_us ∧ 0 ≤ s.max_us ∧
    s.self_us ≤ s.total_us ∧ s.max_us ≤ s.total_us

theorem statInv_default : StatInv {} :=
  ⟨le_rfl, le_rfl, le_rfl, le_rfl, le_rfl⟩

theorem statInv_update (s : KernelStat) (iv : ResolvedInterval)
    (hs : StatInv s) (hiv : IntervalBounds iv) : StatInv (updateStat s iv) := by
  obtain ⟨ht, hsf, hm, hst, hmt⟩ := hs
  obtain ⟨h1, h2, h3⟩ := hiv
  refine ⟨?_, ?_, ?_, ?_, ?_⟩ <;> simp only [updateStat]
  · linarith
  · linarith
  · exact le_trans hm le_sup_left
  · linarith
  · exact sup_le (by linarith) (by linarith)

theorem foldInterval_statInv (stats : StatsMap) (iv : ResolvedInterval)
    (h : ∀ p ∈ stats, StatInv p.2) (hiv : IntervalBounds iv) :
    ∀ p ∈ foldInterval stats iv, StatInv p.2 := by
  induction stats with
  | nil =>
    intro p hp
    rcases List.mem_cons.mp hp with heq | hmem
    · subst heq; exact statInv_update _ _ statInv_default hiv
    · simp at hmem
  | cons q rest ih =>
    obtain ⟨key, stat⟩ := q
    intro p hp
    by_cases hk : key = iv.name
    · simp only [foldInterval] at hp; rw [if_pos hk] at hp
      rcases List.mem_cons.mp hp with heq | hmem
      · subst heq
        exact statInv_update _ _ (h _ (List.mem_cons_self _ _)) hiv
      · exact h _ (List.mem_cons_of_mem _ hmem)
    · simp only [foldInterval] at hp; rw [if_neg hk] at hp
      rcases List.mem_cons.mp hp with heq | hmem
      · subst heq; exact h _ (List.mem_cons_self _ _)
      · exact ih (fun r hr => h r (List.mem_cons_of_mem _ hr)) p hmem

theorem foldl_foldInterval_statInv (intervals : List ResolvedInterval) :
    ∀ stats : StatsMap, (∀ p ∈ stats, StatInv p.2) →
      (∀ iv ∈ intervals, IntervalBounds iv) →
      ∀ p ∈ intervals.foldl foldInterval stats, StatInv p.2 := by
  induction intervals with
  | nil => intro stats h _ p hp; exact h p hp
  | cons iv rest ih =>
    intro stats h hbnd p hp
    rw [List.foldl_cons] at hp
    refine ih _ ?_ (fun j hj => hbnd j (List.mem_cons_of_mem _ hj)) p hp
    exact foldInterval_statInv stats iv h (hbnd iv (List.mem_cons_self _ _))

/-- Claim C1: for a single thread whose event stream is Enter(A,t=0),
Enter(B,t=10), Exit(B,t=30), Exit(A,t=50), the per-thread interval
resolver emits exactly two resolved intervals: B with inclusive_us = 20
and exclusive_us = 20, then A with inclusive_us = 50 and exclusive_us =
30 (the closed child's inclusive time is excluded from the parent's
exclusive time). -/
theorem nested_pair_decomposition :
    resolveIntervals
        [⟨.PushRange, "A", 0, []⟩, ⟨.PushRange, "B", 10, []⟩,
         ⟨.PopRange, "B", 30, []⟩, ⟨.PopRange, "A", 50, []⟩] =
      [⟨"B", 20, 20, ""⟩, ⟨"A", 50, 30, ""⟩] := by
  norm_num [resolveIntervals, resolveLoop, popInterval, addChild, cpuElapsedUs,
    format_shape]

/-- Claim C2, counterexample: folding two intervals of the same name whose
first shape string is empty and whose second is non-empty leaves
`sample_shape = "[2]"`, not the first interval's empty shape — the code
overwrites `sample_shape` as long as it is still empty, so "first-wins
even when the first shape is empty" is false. -/
theorem sample_shape_empty_first_overwritten :
    (lookupStat
        (List.foldl foldInterval []
          [⟨"k", 1, 1, ""⟩, ⟨"k", 2, 2, "[2]"⟩]) "k").sample_shape ≠ "" := by
  simp [foldInterval, updateStat, lookupStat]

/-- Claim C2, amended: for every name, `sample_shape` in the aggregated
mapping is the FIRST NON-EMPTY shape string among the resolved intervals
folded in for that name (empty when all of them are empty): an interval
with an empty shape does not claim the field, and once non-empty it is
never overwritten. -/
theorem sample_shape_first_nonempty (event_lists : List (List LegacyEvent))
    (n : String) :
    (lookupStat (aggregate_kernel_stats event_lists []) n).sample_shape =
      firstNonEmptyShape
        ((allIntervals event_lists).filter (fun iv => iv.name = n)) := by
  rw [aggregate_eq_foldl, lookupStat_foldl, foldl_updateStat_shape]
  simp [lookupStat]

/-- Claim C3: no resolved interval ever carries a negative inclusive_us or
exclusive_us, and a matched pair whose Exit timestamp is earlier than its
Enter timestamp yields an interval with inclusive_us = 0 and
exclusive_us = 0. -/
theorem exit_before_enter_clamped :
    (∀ (events : List LegacyEvent) (stack : List ActiveRange),
        ∀ iv ∈ resolveLoop events stack,
          0 ≤ iv.inclusive_us ∧ 0 ≤ iv.exclusive_us) ∧
      (∀ (event : LegacyEvent) (rest : List LegacyEvent) (active : ActiveRange)
          (below : List ActiveRange), event.kind = .PopRange →
          event.timestamp_us < active.start.timestamp_us →
          0 ≤ active.child_time_us →
          resolveLoop (event :: rest) (active :: below) =
            ⟨active.start.name, 0, 0, format_shape active.start.shapes⟩ ::
              resolveLoop rest (addChild below 0)) := by
  constructor
  · exact fun events stack iv hiv => resolveLoop_nonneg events stack iv hiv
  · intro event rest active below hk hts hc
    have hraw : cpuElapsedUs active.start event < 0 := by
      simp only [cpuElapsedUs]; linarith
    have hpop : popInterval active event =
        ⟨active.start.name, 0, 0, format_shape active.start.shapes⟩ := by
      simp only [popInterval]
      rw [if_pos hraw]
      by_cases hc0 : (0:ℚ) - active.child_time_us < 0
      · rw [if_pos hc0]
      · rw [if_neg hc0]
        have h0 : (0:ℚ) - active.child_time_us = 0 := by
          have := not_lt.mp hc0; linarith
        rw [h0]
    simp only [resolveLoop, hk, hpop]

/-- Witness for claim C3: a concrete Exit at t=5 popping an Enter at t=10
gives the zero interval, and it is non-negative. -/
theorem exit_before_enter_clamped_witness :
    (0 ≤ (popInterval ⟨⟨.PushRange, "A", 10, []⟩, 0⟩
            ⟨.PopRange, "X", 5, []⟩).inclusive_us ∧
      0 ≤ (popInterval ⟨⟨.PushRange, "A", 10, []⟩, 0⟩
            ⟨.PopRange, "X", 5, []⟩).exclusive_us) ∧
    resolveLoop [⟨.PopRange, "X", 5, []⟩] [⟨⟨.PushRange, "A", 10, []⟩, 0⟩] =
      ⟨"A", 0, 0, format_shape ([] : List (List ℤ))⟩ ::
        resolveLoop [] (addChild [] 0) := by
  constructor
  · exact exit_before_enter_clamped.1 [⟨.PopRange, "X", 5, []⟩]
      [⟨⟨.PushRange, "A", 10, []⟩, 0⟩] _ (List.mem_singleton_self _)
  · exact exit_before_enter_clamped.2 ⟨.PopRange, "X", 5, []⟩ []
      ⟨⟨.PushRange, "A", 10, []⟩, 0⟩ [] rfl (by norm_num) le_rfl

/-- Claim C4: folding a multiset of resolved intervals into the statistics
mapping in any permutation yields, for every name, identical calls,
total_us, self_us and max_us (in this exact-rational embedding the sums
are exactly equal, subsuming the claim's floating-point tolerance). -/
theorem aggregation_perm_invariant (ivs ivs' : List ResolvedInterval)
    (h : List.Perm ivs ivs') (n : String) :
    (lookupStat (ivs.foldl foldInterval []) n).calls =
        (lookupStat (ivs'.foldl foldInterval []) n).calls ∧
      (lookupStat (ivs.foldl foldInterval []) n).total_us =
        (lookupStat (ivs'.foldl foldInterval []) n).total_us ∧
      (lookupStat (ivs.foldl foldInterval []) n).self_us =
        (lookupStat (ivs'.foldl foldInterval []) n).self_us ∧
      (lookupStat (ivs.foldl foldInterval []) n).max_us =
        (lookupStat (ivs'.foldl foldInterval []) n).max_us := by
  have hf : List.Perm (ivs.filter (fun iv => iv.name = n))
      (ivs'.filter (fun iv => iv.name = n)) := h.filter _
  rw [lookupStat_foldl, lookupStat_foldl]
  refine ⟨?_, ?_, ?_, ?_⟩
  · rw [foldl_updateStat_calls, foldl_updateStat_calls, hf.length_eq]
  · rw [foldl_updateStat_total, foldl_updateStat_total,
      (hf.map ResolvedInterval.inclusive_us).sum_eq]
  · rw [foldl_updateStat_self, foldl_updateStat_self,
      (hf.map ResolvedInterval.exclusive_us).sum_eq]
  · rw [foldl_updateStat_max, foldl_updateStat_max, foldl_max_perm hf]

/-- Witness for claim C4: swapping two same-named intervals leaves all
four numeric statistics unchanged. -/
theorem aggregation_perm_invariant_witness :
    (lookupStat ([⟨"a", 3, 1, ""⟩, ⟨"a", 5, 2, "s"⟩].foldl foldInterval []) "a").calls =
        (lookupStat ([⟨"a", 5, 2, "s"⟩, ⟨"a", 3, 1, ""⟩].foldl foldInterval []) "a").calls ∧
      (lookupStat ([⟨"a", 3, 1, ""⟩, ⟨"a", 5, 2, "s"⟩].foldl foldInterval []) "a").total_us =
        (lookupStat ([⟨"a", 5, 2, "s"⟩, ⟨"a", 3, 1, ""⟩].foldl foldInterval []) "a").total_us ∧
      (lookupStat ([⟨"a", 3, 1, ""⟩, ⟨"a", 5, 2, "s"⟩].foldl foldInterval []) "a").self_us =
        (lookupStat ([⟨"a", 5, 2, "s"⟩, ⟨"a", 3, 1, ""⟩].foldl foldInterval []) "a").self_us ∧
      (lookupStat ([⟨"a", 3, 1, ""⟩, ⟨"a", 5, 2, "s"⟩].foldl foldInterval []) "a").max_us =
        (lookupStat ([⟨"a", 5, 2, "s"⟩, ⟨"a", 3, 1, ""⟩].foldl foldInterval []) "a").max_us :=
  aggregation_perm_invariant _ _ (List.Perm.swap _ _ _) "a"

/-- Claim C5: whenever the aggregated mapping has more than 30 entries,
the rendered report has exactly 30 data rows, while the grand-total
self-time is the sum of self_us over ALL entries of the mapping. -/
theorem report_truncation_and_grand_total (stats : StatsMap)
    (h : 30 < stats.length) :
    (print_kernel_stats stats).rows.length = 30 ∧
      (print_kernel_stats stats).selfTimeTotal =
        (stats.map (fun e => e.2.self_us)).sum := by
  match stats with
  | [] => simp at h
  | entry :: rest =>
    have hperm : List.Perm (List.insertionSort statBefore (entry :: rest))
        (entry :: rest) := List.perm_insertionSort _ _
    constructor
    · simp only [print_kernel_stats, Report.rows, List.length_map, List.length_take]
      rw [hperm.length_eq]
      omega
    · simp only [print_kernel_stats, Report.selfTimeTotal]
      exact (hperm.map (fun e => e.2.self_us)).sum_eq

/-- Witness for claim C5: a mapping with 31 distinct names renders exactly
30 rows yet sums all 31 entries into the grand total. -/
theorem report_truncation_and_grand_total_witness :
    (print_kernel_stats ((List.range 31).map (fun i => (toString i, {})))).rows.length = 30 ∧
      (print_kernel_stats ((List.range 31).map (fun i => (toString i, {})))).selfTimeTotal =
        (((List.range 31).map (fun i => ((toString i : String), ({} : KernelStat)))).map
          (fun e => e.2.self_us)).sum :=
  report_truncation_and_grand_total _ (by simp)

set_option maxRecDepth 4000 in
/-- Claim C6: for a mapping with names A, B, C carrying total inclusive
times 100, 50, 200, the report rows come out ordered by total inclusive
time descending: C, A, B. -/
theorem report_ranking_descending (sA sB sC : KernelStat)
    (hA : sA.total_us = 100) (hB : sB.total_us = 50) (hC : sC.total_us = 200) :
    (print_kernel_stats [("A", sA), ("B", sB), ("C", sC)]).rows.map Row.name =
      ["C", "A", "B"] := by
  norm_num [print_kernel_stats, List.insertionSort, List.orderedInsert, statBefore,
    hA, hB, hC, mkRow, Report.rows]
  refine ⟨?_, ?_, ?_⟩ <;> decide

/-- Witness for claim C6: the concrete stats with totals 100, 50, 200 in
insertion order A, B, C rank as C, A, B. -/
theorem report_ranking_descending_witness :
    (print_kernel_stats [("A", { total_us := 100 }), ("B", { total_us := 50 }),
        ("C", { total_us := 200 })]).rows.map Row.name = ["C", "A", "B"] :=
  report_ranking_descending _ _ _ rfl rfl rfl

/-- Claim C7: an Exit event arriving on an empty resolver stack is
dropped — it emits no resolved interval, leaves the statistics map
untouched, and processing of the remaining events continues; in
particular the stream consisting only of Exit(X,t=5) yields zero
resolved intervals. -/
theorem unmatched_exit_dropped :
    (∀ (event : LegacyEvent) (rest : List LegacyEvent) (stats : StatsMap),
        event.kind = .PopRange →
          resolveLoop (event :: rest) [] = resolveLoop rest [] ∧
            processLoop stats (event :: rest) [] = processLoop stats rest []) ∧
      resolveIntervals [⟨.PopRange, "X", 5, []⟩] = [] := by
  refine ⟨?_, rfl⟩
  intro event rest stats hk
  constructor <;> simp only [resolveLoop, processLoop, hk]

/-- Witness for claim C7: a concrete lone Exit is skipped by both the
interval view and the stats-folding loop. -/
theorem unmatched_exit_dropped_witness :
    resolveLoop [⟨.PopRange, "Y", 3, []⟩] [] = resolveLoop [] [] ∧
      processLoop [] [⟨.PopRange, "Y", 3, []⟩] [] = processLoop [] [] [] :=
  unmatched_exit_dropped.1 ⟨.PopRange, "Y", 3, []⟩ [] [] rfl

/-- Claim C8: Enter events still unmatched on the stack at end-of-stream
produce no resolved interval and change no statistics; in particular the
stream consisting only of Enter(X,t=0) yields zero resolved intervals. -/
theorem unmatched_enter_dropped :
    (∀ stack : List ActiveRange, resolveLoop [] stack = []) ∧
      (∀ (stats : StatsMap) (stack : List ActiveRange),
          processLoop stats [] stack = stats) ∧
      resolveIntervals [⟨.PushRange, "X", 0, []⟩] = [] :=
  ⟨fun _ => rfl, fun _ _ => rfl, rfl⟩

/-- Claim C9: an empty aggregated mapping takes the "no events collected"
report path: no table rows and no grand-total line are produced. -/
theorem empty_stats_no_events_report :
    print_kernel_stats [] = Report.noEvents ∧
      (print_kernel_stats []).rows = [] ∧
      (print_kernel_stats []).selfTimeTotal = 0 :=
  ⟨rfl, rfl, rfl⟩

/-- Claim C10: every resolved interval satisfies 0 ≤ exclusive_us ≤
inclusive_us, and every entry of the aggregated mapping satisfies
self_us ≤ total_us and max_us ≤ total_us. -/
theorem interval_and_stat_bounds :
    (∀ events : List LegacyEvent, ∀ iv ∈ resolveIntervals events,
        0 ≤ iv.exclusive_us ∧ iv.exclusive_us ≤ iv.inclusive_us) ∧
      (∀ (event_lists : List (List LegacyEvent)) (name : String)
          (stat : KernelStat),
          (name, stat) ∈ aggregate_kernel_stats event_lists [] →
            stat.self_us ≤ stat.total_us ∧ stat.max_us ≤ stat.total_us) := by
  constructor
  · intro events iv hiv
    have hb := resolveIntervals_bounds events iv hiv
    exact ⟨hb.2.1, hb.2.2⟩
  · intro event_lists name stat hmem
    rw [aggregate_eq_foldl] at hmem
    have hinv := foldl_foldInterval_statInv (allIntervals event_lists) []
      (by intro p hp; simp at hp) (allIntervals_bounds event_lists) (name, stat) hmem
    exact ⟨hinv.2.2.2.1, hinv.2.2.2.2⟩

/-- Witness for claim C10: the single span A from t=0 to t=50 gives an
interval with 0 ≤ exclusive ≤ inclusive and an aggregated entry with
self ≤ total and max ≤ total. -/
theorem interval_and_stat_bounds_witness :
    (0 ≤ (popInterval ⟨⟨.PushRange, "A", 0, []⟩, 0⟩
            ⟨.PopRange, "A", 50, []⟩).exclusive_us ∧
      (popInterval ⟨⟨.PushRange, "A", 0, []⟩, 0⟩
            ⟨.PopRange, "A", 50, []⟩).exclusive_us ≤
        (popInterval ⟨⟨.PushRange, "A", 0, []⟩, 0⟩
            ⟨.PopRange, "A", 50, []⟩).inclusive_us) ∧
      ((updateStat {} (popInterval ⟨⟨.PushRange, "A", 0, []⟩, 0⟩
            ⟨.PopRange, "A", 50, []⟩)).self_us ≤
          (updateStat {} (popInterval ⟨⟨.PushRange, "A", 0, []⟩, 0⟩
            ⟨.PopRange, "A", 50, []⟩)).total_us ∧
        (updateStat {} (popInterval ⟨⟨.PushRange, "A", 0, []⟩, 0⟩
            ⟨.PopRange, "A", 50, []⟩)).max_us ≤
          (updateStat {} (popInterval ⟨⟨.PushRange, "A", 0, []⟩, 0⟩
            ⟨.PopRange, "A", 50, []⟩)).total_us) := by
  constructor
  · exact interval_and_stat_bounds.1
      [⟨.PushRange, "A", 0, []⟩, ⟨.PopRange, "A", 50, []⟩] _
      (List.mem_singleton_self _)
  · exact interval_and_stat_bounds.2
      [[⟨.PushRange, "A", 0, []⟩, ⟨.PopRange, "A", 50, []⟩]] _ _
      (List.mem_singleton_self _)

end QwenInfer
